import Mathlib

/-!
# Verification of the digital-signature workflow engine

Shallow embedding of `src/FirmaDigitalCompleto.jsx`: the Base64/PEM codec
helpers, the (idealized) Web Crypto signature primitives, and the React
handlers `handleGenerarClaves`, `handleFirmar`, `handleImportarPubEnReceptor`,
`handleVerificar` together with the inline "Simular Ataque" action, modelled
as pure transformations of the component's state.

Strings are modelled through their character lists; byte buffers
(`ArrayBuffer` / `Uint8Array`) as `List Nat` with every element `< 256`.
-/

namespace FirmaDigital

/-- Concatenation of a list of lists (used for JS array/`join`-style glue). -/
def concatAll {α : Type} : List (List α) → List α
  | [] => []
  | l :: ls => l ++ concatAll ls

/-! ## Base64 codec

`bufToBase64` embeds `btoa(String.fromCharCode(...new Uint8Array(buffer)))`:
standard Base64 with `=` padding over the byte list.  `base64ToBuf` embeds
`atob` followed by `charCodeAt` extraction; `atob` implements the WHATWG
"forgiving-base64 decode": strip ASCII whitespace (TAB, LF, FF, CR, SPACE),
drop up to two trailing `=` when the length is a multiple of four, fail when
the length is congruent to 1 mod 4 or a character outside the 64-character
alphabet remains, otherwise decode 6-bit groups. -/

/-- The 64-character Base64 alphabet, indexed by 6-bit value. -/
def sixChr (v : Nat) : Char :=
  "ABCDEFGHIJKLMNOPQRSTUVWXYZabcdefghijklmnopqrstuvwxyz0123456789+/".toList.getD v 'A'

/-- Value of a Base64 alphabet character; `64` marks a character outside the
alphabet (`=` included, as in the WHATWG decoder where padding is handled
separately). -/
def b64Val (c : Char) : Nat :=
  if 65 ≤ c.toNat ∧ c.toNat ≤ 90 then c.toNat - 65
  else if 97 ≤ c.toNat ∧ c.toNat ≤ 122 then c.toNat - 97 + 26
  else if 48 ≤ c.toNat ∧ c.toNat ≤ 57 then c.toNat - 48 + 52
  else if c.toNat = 43 then 62
  else if c.toNat = 47 then 63
  else 64

def isB64Char (c : Char) : Bool := b64Val c < 64

/-- ASCII whitespace per the WHATWG infra standard (what `atob` strips):
TAB, LF, FF, CR, SPACE. -/
def isAsciiWs (c : Char) : Bool :=
  c.toNat == 9 || c.toNat == 10 || c.toNat == 12 || c.toNat == 13 || c.toNat == 32

/-- 6-bit groups of a byte list, as in `btoa` (no padding characters). -/
def encodeSixbits : List Nat → List Nat
  | [] => []
  | [b0] => [b0 / 4, b0 % 4 * 16]
  | [b0, b1] => [b0 / 4, b0 % 4 * 16 + b1 / 16, b1 % 16 * 4]
  | b0 :: b1 :: b2 :: rest =>
      b0 / 4 :: (b0 % 4 * 16 + b1 / 16) :: (b1 % 16 * 4 + b2 / 64) :: b2 % 64 ::
        encodeSixbits rest

/-- `=` padding appended by `btoa`, determined by the byte count mod 3. -/
def padChars (n : Nat) : List Char :=
  if n % 3 = 1 then ['=', '='] else if n % 3 = 2 then ['='] else []

/-- Embeds `bufToBase64` (source lines 18-20). -/
def bufToBase64 (bytes : List Nat) : String :=
  String.mk ((encodeSixbits bytes).map sixChr ++ padChars bytes.length)

/-- Removal of up to two trailing `=` characters (step 2 of the WHATWG
forgiving-base64 decode, applied when the length is a multiple of 4). -/
def removeTrailingPad (l : List Char) : List Char :=
  if l.reverse.take 2 = ['=', '='] then (l.reverse.drop 2).reverse
  else if l.reverse.take 1 = ['='] then (l.reverse.drop 1).reverse
  else l

/-- Reassemble bytes from 6-bit values; a trailing group of 2 or 3 values
yields 1 or 2 bytes, leftover bits are discarded (forgiving decode). -/
def b64DecodeChunks : List Nat → List Nat
  | a :: b :: c :: d :: rest =>
      (a * 4 + b / 16) :: (b % 16 * 16 + c / 4) :: (c % 4 * 64 + d) ::
        b64DecodeChunks rest
  | [a, b] => [a * 4 + b / 16]
  | [a, b, c] => [a * 4 + b / 16, b % 16 * 16 + c / 4]
  | _ => []

/-- Embeds `base64ToBuf` (source lines 22-27): `atob` (forgiving-base64
decode, which throws `InvalidCharacterError` on malformed input) followed by
byte extraction. -/
def base64ToBuf (s : String) : Except String (List Nat) :=
  let t := s.toList.filter (fun c => !isAsciiWs c)
  let u := if t.length % 4 = 0 then removeTrailingPad t else t
  if u.length % 4 = 1 then Except.error "InvalidCharacterError"
  else if !(u.all isB64Char) then Except.error "InvalidCharacterError"
  else Except.ok (b64DecodeChunks (u.map b64Val))

/-! ### Base64 round-trip lemmas -/

theorem sixChr_spec : ∀ v, v < 64 →
    b64Val (sixChr v) = v ∧ isB64Char (sixChr v) = true ∧
    isAsciiWs (sixChr v) = false ∧ sixChr v ≠ '=' := by decide

theorem encodeSixbits_lt : ∀ (bytes : List Nat), (∀ b ∈ bytes, b < 256) →
    ∀ v ∈ encodeSixbits bytes, v < 64
  | [], _, v, hv => by simp [encodeSixbits] at hv
  | [b0], h, v, hv => by
      have h0 := h b0 (by simp)
      simp [encodeSixbits] at hv
      rcases hv with rfl | rfl <;> omega
  | [b0, b1], h, v, hv => by
      have h0 := h b0 (by simp)
      have h1 := h b1 (by simp)
      simp [encodeSixbits] at hv
      rcases hv with rfl | rfl | rfl <;> omega
  | b0 :: b1 :: b2 :: rest, h, v, hv => by
      have h0 := h b0 (by simp)
      have h1 := h b1 (by simp)
      have h2 := h b2 (by simp)
      simp [encodeSixbits] at hv
      rcases hv with rfl | rfl | rfl | rfl | hm
      · omega
      · omega
      · omega
      · omega
      · exact encodeSixbits_lt rest (fun b hb => h b (by simp [hb])) v hm

theorem b64DecodeChunks_encodeSixbits : ∀ (bytes : List Nat),
    (∀ b ∈ bytes, b < 256) → b64DecodeChunks (encodeSixbits bytes) = bytes
  | [], _ => rfl
  | [b0], h => by
      have h0 := h b0 (by simp)
      simp [encodeSixbits, b64DecodeChunks]
      omega
  | [b0, b1], h => by
      have h0 := h b0 (by simp)
      have h1 := h b1 (by simp)
      simp [encodeSixbits, b64DecodeChunks]
      constructor
      · omega
      · omega
  | b0 :: b1 :: b2 :: rest, h => by
      have h0 := h b0 (by simp)
      have h1 := h b1 (by simp)
      have h2 := h b2 (by simp)
      have ih := b64DecodeChunks_encodeSixbits rest (fun b hb => h b (by simp [hb]))
      simp [encodeSixbits, b64DecodeChunks, ih]
      refine ⟨by omega, by omega, by omega⟩

theorem length_encodeSixbits_mod4 : ∀ bytes : List Nat,
    (encodeSixbits bytes).length % 4 ≠ 1
  | [] => by simp [encodeSixbits]
  | [b0] => by simp [encodeSixbits]
  | [b0, b1] => by simp [encodeSixbits]
  | b0 :: b1 :: b2 :: rest => by
      have ih := length_encodeSixbits_mod4 rest
      simp [encodeSixbits]
      omega

theorem padded_length_mod4 : ∀ bytes : List Nat,
    ((encodeSixbits bytes).length + (padChars bytes.length).length) % 4 = 0
  | [] => by simp [encodeSixbits, padChars]
  | [b0] => by simp [encodeSixbits, padChars]
  | [b0, b1] => by simp [encodeSixbits, padChars]
  | b0 :: b1 :: b2 :: rest => by
      have ih := padded_length_mod4 rest
      have hpad : padChars (rest.length + 3) = padChars rest.length := by
        simp [padChars, Nat.add_mod_right]
      simp [encodeSixbits, hpad] at ih ⊢
      omega

theorem removeTrailingPad_of_no_eq (l : List Char) (h : ∀ c ∈ l, c ≠ '=') :
    removeTrailingPad l = l := by
  unfold removeTrailingPad
  have h2 : l.reverse.take 2 ≠ ['=', '='] := by
    intro hc
    have : '=' ∈ l.reverse.take 2 := by rw [hc]; simp
    exact h '=' (by
      have := List.mem_of_mem_take this
      simpa using this) rfl
  have h1 : l.reverse.take 1 ≠ ['='] := by
    intro hc
    have : '=' ∈ l.reverse.take 1 := by rw [hc]; simp
    exact h '=' (by
      have := List.mem_of_mem_take this
      simpa using this) rfl
  rw [if_neg h2, if_neg h1]

theorem removeTrailingPad_append_two (l : List Char) :
    removeTrailingPad (l ++ ['=', '=']) = l := by
  unfold removeTrailingPad
  have : (l ++ ['=', '=']).reverse = '=' :: '=' :: l.reverse := by simp
  rw [this]
  simp

theorem removeTrailingPad_append_one (l : List Char) (h : ∀ c ∈ l, c ≠ '=') :
    removeTrailingPad (l ++ ['=']) = l := by
  unfold removeTrailingPad
  have hrev : (l ++ ['=']).reverse = '=' :: l.reverse := by simp
  rw [hrev]
  cases hl : l.reverse with
  | nil =>
      have : l = [] := by simpa using congrArg List.reverse hl
      subst this
      simp
  | cons c cr =>
      have hc : c ≠ '=' := by
        apply h
        have : c ∈ l.reverse := by rw [hl]; simp
        simpa using this
      have h2 : ('=' :: c :: cr).take 2 ≠ ['=', '='] := by
        simp [List.take]
        intro h'
        exact absurd h' hc
      rw [if_neg h2]
      have hrr : (c :: cr).reverse = l := by simpa using congrArg List.reverse hl.symm
      simp [hrr]

theorem encoded_chars_ne_eq (bytes : List Nat) (h : ∀ b ∈ bytes, b < 256) :
    ∀ c ∈ (encodeSixbits bytes).map sixChr, c ≠ '=' := by
  intro c hc
  simp only [List.mem_map] at hc
  obtain ⟨v, hv, rfl⟩ := hc
  exact (sixChr_spec v (encodeSixbits_lt bytes h v hv)).2.2.2

theorem mem_padChars {c : Char} {n : Nat} (h : c ∈ padChars n) : c = '=' := by
  unfold padChars at h
  split at h
  · simpa using h
  · split at h
    · simpa using h
    · simp at h

theorem encoded_chars_not_ws (bytes : List Nat) (h : ∀ b ∈ bytes, b < 256) :
    ∀ c ∈ (encodeSixbits bytes).map sixChr ++ padChars bytes.length,
      isAsciiWs c = false := by
  intro c hc
  rcases List.mem_append.mp hc with hm | hp
  · simp only [List.mem_map] at hm
    obtain ⟨v, hv, rfl⟩ := hm
    exact (sixChr_spec v (encodeSixbits_lt bytes h v hv)).2.2.1
  · rw [mem_padChars hp]
    decide

theorem removeTrailingPad_encoded (bytes : List Nat) (h : ∀ b ∈ bytes, b < 256) :
    removeTrailingPad ((encodeSixbits bytes).map sixChr ++ padChars bytes.length) =
      (encodeSixbits bytes).map sixChr := by
  unfold padChars
  have hcases : bytes.length % 3 = 0 ∨ bytes.length % 3 = 1 ∨ bytes.length % 3 = 2 := by
    omega
  rcases hcases with h3 | h3 | h3
  · rw [h3]
    simp only [if_neg (by omega : ¬ (0 : Nat) = 1), if_neg (by omega : ¬ (0 : Nat) = 2)]
    rw [List.append_nil]
    exact removeTrailingPad_of_no_eq _ (encoded_chars_ne_eq bytes h)
  · rw [h3]
    simp only [if_pos rfl]
    exact removeTrailingPad_append_two _
  · rw [h3]
    simp only [if_neg (by omega : ¬ (2 : Nat) = 1), if_pos rfl]
    exact removeTrailingPad_append_one _ (encoded_chars_ne_eq bytes h)

theorem map_b64Val_sixChr (l : List Nat) (h : ∀ v ∈ l, v < 64) :
    ((l.map sixChr).map b64Val) = l := by
  rw [List.map_map]
  have : ∀ v ∈ l, (b64Val ∘ sixChr) v = id v := by
    intro v hv
    simpa using (sixChr_spec v (h v hv)).1
  rw [List.map_congr_left this, List.map_id]

/-- Decoding inverts encoding on byte lists (the signature / key material
round-trip through the Base64 text box). -/
theorem base64ToBuf_bufToBase64 (bytes : List Nat) (h : ∀ b ∈ bytes, b < 256) :
    base64ToBuf (bufToBase64 bytes) = Except.ok bytes := by
  unfold base64ToBuf bufToBase64
  have htl : (String.mk ((encodeSixbits bytes).map sixChr ++ padChars bytes.length)).toList =
      (encodeSixbits bytes).map sixChr ++ padChars bytes.length := rfl
  rw [htl]
  have hfilter : ((encodeSixbits bytes).map sixChr ++ padChars bytes.length).filter
      (fun c => !isAsciiWs c) = (encodeSixbits bytes).map sixChr ++ padChars bytes.length := by
    apply List.filter_eq_self.mpr
    intro c hc
    simp [encoded_chars_not_ws bytes h c hc]
  simp only [hfilter]
  have hlen : ((encodeSixbits bytes).map sixChr ++ padChars bytes.length).length % 4 = 0 := by
    have := padded_length_mod4 bytes
    simpa using this
  rw [if_pos hlen, removeTrailingPad_encoded bytes h]
  have hlen2 : ((encodeSixbits bytes).map sixChr).length % 4 ≠ 1 := by
    simpa using length_encodeSixbits_mod4 bytes
  rw [if_neg hlen2]
  have hall : ((encodeSixbits bytes).map sixChr).all isB64Char = true := by
    apply List.all_eq_true.mpr
    intro c hc
    simp only [List.mem_map] at hc
    obtain ⟨v, hv, rfl⟩ := hc
    exact (sixChr_spec v (encodeSixbits_lt bytes h v hv)).2.1
  rw [hall]
  simp only [Bool.not_true, Bool.false_eq_true, if_false, if_neg (by simp : ¬ (false = true))]
  rw [map_b64Val_sixChr _ (encodeSixbits_lt bytes h), b64DecodeChunks_encodeSixbits bytes h]

theorem bufToBase64_chars_b64pad (bytes : List Nat) (h : ∀ b ∈ bytes, b < 256) :
    ∀ c ∈ (bufToBase64 bytes).toList, isB64Char c = true ∨ c = '=' := by
  intro c hc
  have hc' : c ∈ (encodeSixbits bytes).map sixChr ++ padChars bytes.length := hc
  rcases List.mem_append.mp hc' with hm | hp
  · simp only [List.mem_map] at hm
    obtain ⟨v, hv, rfl⟩ := hm
    exact Or.inl (sixChr_spec v (encodeSixbits_lt bytes h v hv)).2.1
  · right
    unfold padChars at hp
    split at hp <;> simp_all

theorem bufToBase64_ne_empty (bytes : List Nat) (hne : bytes ≠ []) :
    bufToBase64 bytes ≠ "" := by
  unfold bufToBase64
  intro hcon
  have : ((encodeSixbits bytes).map sixChr ++ padChars bytes.length) = [] := by
    have := congrArg String.toList hcon
    simpa using this
  have henc : encodeSixbits bytes ≠ [] := by
    match bytes with
    | [] => exact absurd rfl hne
    | [b0] => simp [encodeSixbits]
    | [b0, b1] => simp [encodeSixbits]
    | b0 :: b1 :: b2 :: rest => simp [encodeSixbits]
  simp [List.append_eq_nil] at this
  exact henc (by simpa using this.1)

/-! ## PEM armoring

`pemEncode` (source lines 29-33) wraps a Base64 payload between
`-----BEGIN {tag}-----` and `-----END {tag}-----`, the body hard-wrapped at
64 characters via `base64.match(/.{1,64}/g).join('\n')`.  On a payload with
no match (e.g. the empty string) `match` yields `null` and `.join` throws a
`TypeError`, modelled as `none`.

`pemToBase64` (source lines 35-37) is
`pem.replace(/-----.*-----/g, '').replace(/\s+/g, '')`.  ECMAScript `.`
(without the `s` flag) matches any character except a LineTerminator (LF,
CR, U+2028, U+2029), and `-` is none of them either, so every match of the
first regex lies within a single maximal LineTerminator-free segment; the
engine scans the segments left to right, within each picking the leftmost
opening `-----`, extending `.*` greedily to the end of the segment's last
`-----`, deleting the match and resuming after it (`stripDelimLine` below,
applied per segment).  The separators between the segments are all `\s`
whitespace and are deleted — like the `'\n'` used to rejoin the segments
here — by the second replace, which removes every JS-whitespace
character. -/

/-- Whitespace class of the JS regex `\s`. -/
def isJsWs (c : Char) : Bool :=
  c.toNat == 9 || c.toNat == 10 || c.toNat == 11 || c.toNat == 12 ||
  c.toNat == 13 || c.toNat == 32 || c.toNat == 160 || c.toNat == 5760 ||
  (decide (8192 ≤ c.toNat) && decide (c.toNat ≤ 8202)) ||
  c.toNat == 8232 || c.toNat == 8233 || c.toNat == 8239 || c.toNat == 8287 ||
  c.toNat == 12288 || c.toNat == 65279

/-- ECMAScript LineTerminator characters (LF, CR, U+2028, U+2029): a regex
`.` without the `s` flag matches any character except these. -/
def isLineTerm (c : Char) : Bool :=
  c.toNat == 10 || c.toNat == 13 || c.toNat == 8232 || c.toNat == 8233

def dash5 : List Char := ['-', '-', '-', '-', '-']

/-- Split a character list at every ECMAScript LineTerminator; every match of
a `.`-based regex lies within one of the resulting segments. -/
def splitLT : List Char → List (List Char)
  | [] => [[]]
  | c :: rest =>
    match splitLT rest with
    | [] => [[c]]
    | h :: t => if isLineTerm c then [] :: h :: t else (c :: h) :: t

/-- Join segments with newlines (as `pemEncode`'s `.join('\n')` does). -/
def joinNl : List (List Char) → List Char
  | [] => []
  | [x] => x
  | x :: y :: rest => x ++ '\n' :: joinNl (y :: rest)

/-- Fuel-driven chunking of a line into runs of at most 64 characters
(the per-line behaviour of `/.{1,64}/g`). -/
def chunk64F : Nat → List Char → List (List Char)
  | _, [] => []
  | 0, _ :: _ => []
  | f + 1, c :: rest => (c :: rest).take 64 :: chunk64F f ((c :: rest).drop 64)

def chunk64 (l : List Char) : List (List Char) := chunk64F l.length l

/-- All matches of `/.{1,64}/g`: a LineTerminator never belongs to a match,
so the matches are the ≤64-character chunks of each LineTerminator-free
segment, in order. -/
def matchChunks (l : List Char) : List (List Char) :=
  concatAll ((splitLT l).map chunk64)

def pemHeader (tag : List Char) : List Char := "-----BEGIN ".toList ++ tag ++ dash5

def pemFooter (tag : List Char) : List Char := "-----END ".toList ++ tag ++ dash5

/-- Embeds `pemEncode` (source lines 29-33). -/
def pemEncode (base64 tag : String) : Option String :=
  match matchChunks base64.toList with
  | [] => none
  | c :: cs =>
      some (String.mk (pemHeader tag.toList ++
        '\n' :: joinNl (c :: cs) ++ '\n' :: pemFooter tag.toList))

/-- Index of the last occurrence of `-----` in a segment, if any. -/
def lastDash5Start : List Char → Option Nat
  | [] => none
  | c :: rest =>
    match lastDash5Start rest with
    | some j => some (j + 1)
    | none => if (c :: rest).take 5 = dash5 then some 0 else none

/-- Fuel-driven scan replacing every match of `-----.*-----` (greedy, leftmost,
no rescan of replaced text) within a single LineTerminator-free segment by
the empty string. -/
def stripDelimF : Nat → List Char → List Char
  | _, [] => []
  | 0, c :: rest => c :: rest
  | f + 1, c :: rest =>
    if (c :: rest).take 5 = dash5 then
      match lastDash5Start ((c :: rest).drop 5) with
      | some j => stripDelimF f ((c :: rest).drop (10 + j))
      | none => c :: stripDelimF f rest
    else c :: stripDelimF f rest

def stripDelimLine (l : List Char) : List Char := stripDelimF l.length l

def wsFilter (l : List Char) : List Char := l.filter (fun c => !isJsWs c)

/-- Embeds `pemToBase64` (source lines 35-37): delimiter matches are
stripped per LineTerminator-free segment, then all whitespace is removed
(the segment separators, being whitespace, vanish either way). -/
def pemToBase64 (pem : String) : String :=
  String.mk (wsFilter (joinNl ((splitLT pem.toList).map stripDelimLine)))

/-! ### PEM lemmas -/

theorem splitLT_ne_nil : ∀ l : List Char, splitLT l ≠ []
  | [] => by simp [splitLT]
  | c :: rest => by
      simp only [splitLT]
      cases hb : splitLT rest with
      | nil => simp
      | cons h t => by_cases hc : isLineTerm c = true <;> simp [hc]

theorem splitLT_no_lt : ∀ l : List Char, (∀ c ∈ l, isLineTerm c = false) →
    splitLT l = [l]
  | [], _ => rfl
  | c :: rest, h => by
      have hr := splitLT_no_lt rest (fun x hx => h x (by simp [hx]))
      have hc : isLineTerm c = false := h c (by simp)
      simp [splitLT, hr, hc]

theorem splitLT_append_nl : ∀ (a b : List Char), (∀ c ∈ a, isLineTerm c = false) →
    splitLT (a ++ '\n' :: b) = a :: splitLT b
  | [], b, _ => by
      have hnlt : isLineTerm '\n' = true := by decide
      cases hb : splitLT b with
      | nil => exact absurd hb (splitLT_ne_nil b)
      | cons h t => simp [splitLT, hb, hnlt]
  | c :: a', b, h => by
      have ih := splitLT_append_nl a' b (fun x hx => h x (by simp [hx]))
      have hc : isLineTerm c = false := h c (by simp)
      simp [splitLT, ih, hc]

theorem splitLT_joinNl_append : ∀ (chunks : List (List Char)) (rest : List Char),
    chunks ≠ [] → (∀ ch ∈ chunks, ∀ c ∈ ch, isLineTerm c = false) →
    splitLT (joinNl chunks ++ '\n' :: rest) = chunks ++ splitLT rest
  | [], _, hne, _ => absurd rfl hne
  | [x], rest, _, h => by
      simp only [joinNl]
      rw [splitLT_append_nl x rest (h x (by simp))]
      simp
  | x :: y :: t, rest, _, h => by
      have ih := splitLT_joinNl_append (y :: t) rest (by simp)
        (fun ch hch => h ch (by simp [List.mem_cons] at hch ⊢; tauto))
      simp only [joinNl]
      rw [List.append_assoc, List.cons_append]
      rw [splitLT_append_nl x _ (h x (by simp))]
      rw [ih]
      simp

theorem wsFilter_joinNl : ∀ ls : List (List Char),
    wsFilter (joinNl ls) = concatAll (ls.map wsFilter)
  | [] => rfl
  | [x] => by simp [joinNl, concatAll]
  | x :: y :: t => by
      have ih := wsFilter_joinNl (y :: t)
      simp only [joinNl, List.map_cons, concatAll]
      unfold wsFilter at ih ⊢
      have hstep : List.filter (fun c => !isJsWs c) ('\n' :: joinNl (y :: t)) =
          List.filter (fun c => !isJsWs c) (joinNl (y :: t)) := by
        have hnl : (!isJsWs '\n') = false := by decide
        simp [List.filter_cons, hnl]
      rw [List.filter_append, hstep, ih]
      simp [concatAll]

theorem chunk64F_congr : ∀ (f g : Nat) (l : List Char), l.length ≤ f →
    l.length ≤ g → chunk64F f l = chunk64F g l
  | _, _, [], _, _ => by simp [chunk64F]
  | 0, _, c :: rest, hf, _ => by simp at hf
  | _ + 1, 0, c :: rest, _, hg => by simp at hg
  | f + 1, g + 1, c :: rest, hf, hg => by
      simp only [chunk64F]
      have hlen : ((c :: rest).drop 64).length ≤ f ∧ ((c :: rest).drop 64).length ≤ g := by
        simp only [List.length_drop, List.length_cons] at *
        omega
      rw [chunk64F_congr f g _ hlen.1 hlen.2]

theorem chunk64_cons (l : List Char) (h : l ≠ []) :
    chunk64 l = l.take 64 :: chunk64 (l.drop 64) := by
  match l, h with
  | c :: rest, _ =>
    unfold chunk64
    have h1 : (c :: rest).length = rest.length + 1 := by simp
    rw [h1]
    show (c :: rest).take 64 :: chunk64F rest.length ((c :: rest).drop 64) = _
    congr 1
    exact chunk64F_congr rest.length ((c :: rest).drop 64).length _
      (by simp only [List.length_drop, List.length_cons]; omega) le_rfl

theorem concatAll_chunk64_aux : ∀ (n : Nat) (l : List Char), l.length ≤ n →
    concatAll (chunk64 l) = l
  | _, [], _ => rfl
  | 0, c :: rest, h => by simp at h
  | n + 1, c :: rest, h => by
      rw [chunk64_cons (c :: rest) (by simp)]
      have hd : ((c :: rest).drop 64).length ≤ n := by
        simp only [List.length_drop, List.length_cons] at *
        omega
      simp only [concatAll]
      rw [concatAll_chunk64_aux n _ hd, List.take_append_drop]

theorem concatAll_chunk64 (l : List Char) : concatAll (chunk64 l) = l :=
  concatAll_chunk64_aux l.length l le_rfl

theorem chunk64_mem_aux : ∀ (n : Nat) (l : List Char), l.length ≤ n →
    ∀ ch ∈ chunk64 l, ∀ c ∈ ch, c ∈ l
  | _, [], _, ch, hch => by simp [chunk64, chunk64F] at hch
  | 0, c :: rest, h, _, _ => by simp at h
  | n + 1, x :: rest, h, ch, hch => by
      rw [chunk64_cons (x :: rest) (by simp)] at hch
      intro c hc
      rcases List.mem_cons.mp hch with rfl | hm
      · exact List.mem_of_mem_take hc
      · have hd : ((x :: rest).drop 64).length ≤ n := by
          simp only [List.length_drop, List.length_cons] at *
          omega
        exact List.mem_of_mem_drop (chunk64_mem_aux n _ hd ch hm c hc)

theorem chunk64_mem (l : List Char) : ∀ ch ∈ chunk64 l, ∀ c ∈ ch, c ∈ l :=
  chunk64_mem_aux l.length l le_rfl

theorem chunk64_ne_nil_mem : ∀ (n : Nat) (l : List Char), l.length ≤ n →
    ∀ ch ∈ chunk64 l, ch ≠ []
  | _, [], _, ch, hch => by simp [chunk64, chunk64F] at hch
  | 0, c :: rest, h, _, _ => by simp at h
  | n + 1, x :: rest, h, ch, hch => by
      rw [chunk64_cons (x :: rest) (by simp)] at hch
      rcases List.mem_cons.mp hch with rfl | hm
      · simp
      · have hd : ((x :: rest).drop 64).length ≤ n := by
          simp only [List.length_drop, List.length_cons] at *
          omega
        exact chunk64_ne_nil_mem n _ hd ch hm

theorem matchChunks_no_lt (l : List Char) (h : ∀ c ∈ l, isLineTerm c = false) :
    matchChunks l = chunk64 l := by
  unfold matchChunks
  rw [splitLT_no_lt l h]
  simp [concatAll]

theorem lastDash5Start_append_dash5 : ∀ m : List Char,
    lastDash5Start (m ++ dash5) = some m.length
  | [] => by decide
  | c :: m' => by
      have ih := lastDash5Start_append_dash5 m'
      show (match lastDash5Start (m' ++ dash5) with
        | some j => some (j + 1)
        | none => if (c :: (m' ++ dash5)).take 5 = dash5 then some 0 else none) =
          some (c :: m').length
      rw [ih]
      simp

theorem stripDelimF_no_dash : ∀ (f : Nat) (l : List Char), l.length ≤ f →
    '-' ∉ l → stripDelimF f l = l
  | _, [], _, _ => by simp [stripDelimF]
  | 0, c :: rest, h, _ => by simp at h
  | f + 1, c :: rest, h, hd => by
      have hc : c ≠ '-' := fun hc => hd (by simp [hc])
      have htake : (c :: rest).take 5 ≠ dash5 := by
        intro h5
        have hhead : c = '-' := by
          have := congrArg (fun l => l.head?) h5
          simpa [dash5] using this
        exact hc hhead
      simp only [stripDelimF, if_neg htake]
      rw [stripDelimF_no_dash f rest (by simp at h; omega) (fun hm => hd (by simp [hm]))]

theorem stripDelimLine_no_dash (l : List Char) (h : '-' ∉ l) :
    stripDelimLine l = l :=
  stripDelimF_no_dash l.length l le_rfl h

theorem stripDelimF_step (f : Nat) (c : Char) (rest : List Char)
    (htake : (c :: rest).take 5 = dash5) (j : Nat)
    (hlast : lastDash5Start ((c :: rest).drop 5) = some j) :
    stripDelimF (f + 1) (c :: rest) = stripDelimF f ((c :: rest).drop (10 + j)) := by
  show (if (c :: rest).take 5 = dash5 then
      match lastDash5Start ((c :: rest).drop 5) with
      | some j => stripDelimF f ((c :: rest).drop (10 + j))
      | none => c :: stripDelimF f rest
    else c :: stripDelimF f rest) = _
  rw [if_pos htake, hlast]

theorem stripDelimLine_full (m : List Char) :
    stripDelimLine (dash5 ++ m ++ dash5) = [] := by
  have hshape : dash5 ++ m ++ dash5 =
      '-' :: '-' :: '-' :: '-' :: '-' :: (m ++ dash5) := by simp [dash5]
  unfold stripDelimLine
  rw [hshape]
  have hlen2 : ('-' :: '-' :: '-' :: '-' :: '-' :: (m ++ dash5)).length = m.length + 9 + 1 := by
    simp [dash5]
    try omega
  rw [hlen2]
  have htake : ('-' :: '-' :: '-' :: '-' :: '-' :: (m ++ dash5)).take 5 = dash5 := rfl
  have hlast : lastDash5Start (('-' :: '-' :: '-' :: '-' :: '-' :: (m ++ dash5)).drop 5) =
      some m.length := lastDash5Start_append_dash5 m
  rw [stripDelimF_step (m.length + 9) '-' _ htake m.length hlast]
  have hdropall : ('-' :: '-' :: '-' :: '-' :: '-' :: (m ++ dash5)).drop (10 + m.length) = [] := by
    apply List.drop_eq_nil_of_le
    simp [dash5]
    omega
  rw [hdropall]
  simp [stripDelimF]

theorem b64pad_props (c : Char) (h : isB64Char c = true ∨ c = '=') :
    isJsWs c = false ∧ isAsciiWs c = false ∧ c ≠ '-' ∧ isLineTerm c = false := by
  rcases h with h | rfl
  · have hn : (65 ≤ c.toNat ∧ c.toNat ≤ 90) ∨ (97 ≤ c.toNat ∧ c.toNat ≤ 122) ∨
        (48 ≤ c.toNat ∧ c.toNat ≤ 57) ∨ c.toNat = 43 ∨ c.toNat = 47 := by
      unfold isB64Char b64Val at h
      split_ifs at h with h1 h2 h3 h4 h5
      · exact Or.inl h1
      · exact Or.inr (Or.inl h2)
      · exact Or.inr (Or.inr (Or.inl h3))
      · exact Or.inr (Or.inr (Or.inr (Or.inl h4)))
      · exact Or.inr (Or.inr (Or.inr (Or.inr h5)))
      · simp at h
    refine ⟨?_, ?_, ?_, ?_⟩
    · simp only [isJsWs, Bool.or_eq_false_iff, beq_eq_false_iff_ne, ne_eq,
        Bool.and_eq_false_iff, decide_eq_false_iff_not, not_le]
      omega
    · simp only [isAsciiWs, Bool.or_eq_false_iff, beq_eq_false_iff_ne, ne_eq]
      omega
    · intro hcon
      rw [hcon] at hn
      exact absurd hn (by decide)
    · simp only [isLineTerm, Bool.or_eq_false_iff, beq_eq_false_iff_ne, ne_eq]
      omega
  · exact ⟨by decide, by decide, by decide, by decide⟩

theorem pemHeader_no_lt (t : List Char) (ht : ∀ c ∈ t, isLineTerm c = false) :
    ∀ c ∈ pemHeader t, isLineTerm c = false := by
  intro c hm
  unfold pemHeader at hm
  rcases List.mem_append.mp hm with hm1 | hm2
  · rcases List.mem_append.mp hm1 with hma | hmb
    · have hlit : ∀ x ∈ "-----BEGIN ".toList, isLineTerm x = false := by decide
      exact hlit c hma
    · exact ht c hmb
  · have hdash : ∀ x ∈ dash5, isLineTerm x = false := by decide
    exact hdash c hm2

theorem pemFooter_no_lt (t : List Char) (ht : ∀ c ∈ t, isLineTerm c = false) :
    ∀ c ∈ pemFooter t, isLineTerm c = false := by
  intro c hm
  unfold pemFooter at hm
  rcases List.mem_append.mp hm with hm1 | hm2
  · rcases List.mem_append.mp hm1 with hma | hmb
    · have hlit : ∀ x ∈ "-----END ".toList, isLineTerm x = false := by decide
      exact hlit c hma
    · exact ht c hmb
  · have hdash : ∀ x ∈ dash5, isLineTerm x = false := by decide
    exact hdash c hm2

theorem stripDelimLine_header (t : List Char) : stripDelimLine (pemHeader t) = [] := by
  have h1 : pemHeader t = dash5 ++ ("BEGIN ".toList ++ t) ++ dash5 := by
    show "-----BEGIN ".toList ++ (t ++ dash5) = _
    rw [show "-----BEGIN ".toList = dash5 ++ "BEGIN ".toList from rfl]
    simp [List.append_assoc]
  rw [h1]
  exact stripDelimLine_full _

theorem stripDelimLine_footer (t : List Char) : stripDelimLine (pemFooter t) = [] := by
  have h1 : pemFooter t = dash5 ++ ("END ".toList ++ t) ++ dash5 := by
    show "-----END ".toList ++ (t ++ dash5) = _
    rw [show "-----END ".toList = dash5 ++ "END ".toList from rfl]
    simp [List.append_assoc]
  rw [h1]
  exact stripDelimLine_full _

theorem concatAll_append {α : Type} : ∀ (a b : List (List α)),
    concatAll (a ++ b) = concatAll a ++ concatAll b
  | [], _ => rfl
  | x :: a', b => by
      show x ++ concatAll (a' ++ b) = x ++ concatAll a' ++ concatAll b
      rw [concatAll_append a' b, List.append_assoc]

theorem mk_toList (s : String) : String.mk s.toList = s := by
  cases s
  rfl

theorem pemToBase64_mk (a : List Char) :
    pemToBase64 (String.mk a) =
      String.mk (wsFilter (joinNl ((splitLT a).map stripDelimLine))) := rfl

theorem pemToBase64_armored (tagL : List Char) (chunks : List (List Char))
    (hne : chunks ≠ [])
    (hnl : ∀ ch ∈ chunks, ∀ c ∈ ch, isLineTerm c = false)
    (hdash : ∀ ch ∈ chunks, '-' ∉ ch)
    (hws : ∀ ch ∈ chunks, ∀ c ∈ ch, isJsWs c = false)
    (ht : ∀ c ∈ tagL, isLineTerm c = false) :
    wsFilter (joinNl ((splitLT (pemHeader tagL ++
      '\n' :: (joinNl chunks ++ '\n' :: pemFooter tagL))).map stripDelimLine)) =
      concatAll chunks := by
  rw [splitLT_append_nl _ _ (pemHeader_no_lt tagL ht)]
  rw [splitLT_joinNl_append chunks _ hne hnl]
  rw [splitLT_no_lt _ (pemFooter_no_lt tagL ht)]
  simp only [List.map_cons, List.map_append]
  rw [stripDelimLine_header, stripDelimLine_footer]
  have hmapchunks : chunks.map stripDelimLine = chunks := by
    have h1 : ∀ ch ∈ chunks, stripDelimLine ch = id ch := by
      intro ch hch
      exact stripDelimLine_no_dash ch (hdash ch hch)
    rw [List.map_congr_left h1, List.map_id]
  rw [hmapchunks, wsFilter_joinNl]
  simp only [List.map_cons, List.map_append]
  have hmapws : chunks.map wsFilter = chunks := by
    have h1 : ∀ ch ∈ chunks, wsFilter ch = id ch := by
      intro ch hch
      unfold wsFilter
      apply List.filter_eq_self.mpr
      intro c hc
      simp [hws ch hch c hc]
    rw [List.map_congr_left h1, List.map_id]
  rw [hmapws]
  simp only [concatAll, concatAll_append]
  simp [concatAll, wsFilter]

/-- Armoring a non-empty payload of Base64 characters with a
LineTerminator-free tag, then unarmoring, recovers the payload exactly. -/
theorem pem_roundtrip (x tag : String) (hne : x.toList ≠ [])
    (hb : ∀ c ∈ x.toList, isB64Char c = true ∨ c = '=')
    (ht : ∀ c ∈ tag.toList, isLineTerm c = false) :
    ∃ a, pemEncode x tag = some a ∧ pemToBase64 a = x := by
  have hlt : ∀ c ∈ x.toList, isLineTerm c = false :=
    fun c hc => (b64pad_props c (hb c hc)).2.2.2
  have hmatch : matchChunks x.toList = chunk64 x.toList := matchChunks_no_lt _ hlt
  obtain ⟨c0, cs, hcs⟩ : ∃ c0 cs, chunk64 x.toList = c0 :: cs := by
    cases hh : chunk64 x.toList with
    | nil =>
        rw [chunk64_cons x.toList hne] at hh
        exact absurd hh (by simp)
    | cons a b => exact ⟨a, b, rfl⟩
  refine ⟨String.mk (pemHeader tag.toList ++
    '\n' :: joinNl (c0 :: cs) ++ '\n' :: pemFooter tag.toList), ?_, ?_⟩
  · unfold pemEncode
    rw [hmatch, hcs]
  · rw [pemToBase64_mk]
    have hchmem : ∀ ch ∈ c0 :: cs, ∀ c ∈ ch, c ∈ x.toList := by
      intro ch hch c hc
      exact chunk64_mem x.toList ch (hcs ▸ hch) c hc
    have hassoc : pemHeader tag.toList ++
        '\n' :: joinNl (c0 :: cs) ++ '\n' :: pemFooter tag.toList =
        pemHeader tag.toList ++
        '\n' :: (joinNl (c0 :: cs) ++ '\n' :: pemFooter tag.toList) := by
      rw [List.append_assoc, List.cons_append]
    rw [hassoc]
    rw [pemToBase64_armored tag.toList (c0 :: cs) (by simp)
      (fun ch hch c hc => hlt c (hchmem ch hch c hc))
      (fun ch hch hm => ((b64pad_props _ (hb _ (hchmem ch hch '-' hm))).2.2.1) rfl)
      (fun ch hch c hc => (b64pad_props c (hb c (hchmem ch hch c hc))).1)
      ht]
    rw [← hcs, concatAll_chunk64, mk_toList]

/-! ## Idealized cryptographic provider

The Web Crypto primitives (`window.crypto.subtle`) are external to the
repository.  Following the spec (§3, §4.2, §4.3), they are modelled as an
ideal deterministic signature scheme: key handles carry the generation's
randomness, exports are deterministic injective byte encodings, and the
verification predicate holds exactly for the signature bytes produced over
the same message by the matching private key (PKCS#1 v1.5 signatures are
deterministic, and the spec assumes scheme correctness "with probability
1"). -/

structure PubKey where
  id : Nat
deriving DecidableEq

structure PrivKey where
  id : Nat
deriving DecidableEq

structure KeyPair where
  publicKey : PubKey
  privateKey : PrivKey
deriving DecidableEq

/-- Modelled from the spec: `generateKeyPair` (source lines 5-16) asks the
external provider for a fresh RSA-2048/SHA-256 pair.  The provider's
randomness is an explicit parameter; both handles share it ("generated
atomically; the two handles are always produced together"). -/
def generateKeyPair (fresh : Nat) : KeyPair := ⟨⟨fresh⟩, ⟨fresh⟩⟩

/-- Modelled from the spec: SPKI export ("standard public-key binary
interchange encoding") — deterministic, injective, non-empty bytes. -/
def spkiEncode (k : PubKey) : List Nat := 42 :: List.replicate k.id 1

/-- Modelled from the spec: SPKI parse, failing on bytes that are not a
structurally valid public-key encoding. -/
def spkiDecode (bytes : List Nat) : Option PubKey :=
  match bytes with
  | 42 :: rest => if rest.all (fun b => b == 1) then some ⟨rest.length⟩ else none
  | _ => none

/-- Modelled from the spec: PKCS#8 export of a private key handle. -/
def pkcs8Encode (k : PrivKey) : List Nat := 43 :: List.replicate k.id 1

/-- Modelled from the spec: `crypto.subtle.sign` with RSASSA-PKCS1-v1_5 —
deterministic signature bytes over (key, message bytes), injectively
encoding both. -/
def signMessage (privateKey : PrivKey) (data : List Nat) : List Nat :=
  List.replicate privateKey.id 1 ++ 0 :: data

/-- Modelled from the spec: `crypto.subtle.verify` — true exactly when the
signature bytes are the signature of `data` under the matching private
key. -/
def verifySignature (publicKey : PubKey) (signature : List Nat)
    (data : List Nat) : Bool :=
  signature == signMessage ⟨publicKey.id⟩ data

/-- UTF-8 bytes of one character (scalar values; Lean `Char` has no
surrogates). -/
def utf8Char (c : Char) : List Nat :=
  if c.toNat < 128 then [c.toNat]
  else if c.toNat < 2048 then [192 + c.toNat / 64, 128 + c.toNat % 64]
  else if c.toNat < 65536 then
    [224 + c.toNat / 4096, 128 + c.toNat / 64 % 64, 128 + c.toNat % 64]
  else
    [240 + c.toNat / 262144, 128 + c.toNat / 4096 % 64, 128 + c.toNat / 64 % 64,
      128 + c.toNat % 64]

/-- Embeds `new TextEncoder().encode(...)`: UTF-8 bytes of the string. -/
def utf8Encode (s : String) : List Nat := concatAll (s.toList.map utf8Char)

/-- Embeds `exportPublicKeyToPEM` (lines 39-42).  The Base64 payload of an
exported key is never empty, so the `null.join` `TypeError` of `pemEncode`
cannot occur here; `getD` is the harmless default for that dead branch. -/
def exportPublicKeyToPEM (publicKey : PubKey) : String :=
  (pemEncode (bufToBase64 (spkiEncode publicKey)) "PUBLIC KEY").getD ""

/-- Embeds `exportPrivateKeyToPEM` (lines 44-47). -/
def exportPrivateKeyToPEM (privateKey : PrivKey) : String :=
  (pemEncode (bufToBase64 (pkcs8Encode privateKey)) "PRIVATE KEY").getD ""

/-- Embeds `importPublicKeyFromPEM` (lines 49-58): unarmor, Base64-decode
(errors propagate), then parse the SPKI bytes. -/
def importPublicKeyFromPEM (pem : String) : Except String PubKey :=
  match base64ToBuf (pemToBase64 pem) with
  | Except.error e => Except.error e
  | Except.ok buf =>
    match spkiDecode buf with
    | some k => Except.ok k
    | none => Except.error "ImportError"

/-! ## Workflow state and handlers

The React component state (lines 76-87), with the four handlers and the two
inline button actions as pure state transformations.  Alerts are
presentation-only and not part of the state. -/

structure WorkflowState where
  privKeyA : Option PrivKey
  pubKeyA : Option PubKey
  privPemA : String
  pubPemA : String
  pubKeyB : Option PubKey
  pubPemB : String
  mensaje : String
  originalMensaje : String
  firmaB64 : String
  verificacion : String
deriving DecidableEq

/-- The initial `useState` values (lines 76-87). -/
def initialState : WorkflowState :=
  ⟨none, none, "", "", none, "", "", "", "", ""⟩

/-- Embeds `handleGenerarClaves` (lines 90-106); the provider's randomness
is the explicit `fresh` parameter.  Key generation and the two exports
cannot fail in the idealized model, so the catch branch is unreachable. -/
def handleGenerarClaves (s : WorkflowState) (fresh : Nat) : WorkflowState :=
  let pair := generateKeyPair fresh
  { s with privKeyA := some pair.privateKey, pubKeyA := some pair.publicKey,
           privPemA := exportPrivateKeyToPEM pair.privateKey,
           pubPemA := exportPublicKeyToPEM pair.publicKey }

/-- Embeds `handleFirmar` (lines 109-125), generic over the outcome of the
awaited `crypto.subtle.sign` call (the spec allows `SigningError`): the two
guards, then `setOriginalMensaje(mensaje)` BEFORE the try block, then the
signing attempt whose failure is caught (alert only). -/
def handleFirmarWith (s : WorkflowState)
    (signFn : PrivKey → List Nat → Except String (List Nat)) : WorkflowState :=
  match s.privKeyA with
  | none => s
  | some k =>
    if s.mensaje = "" then s
    else
      let s1 := { s with originalMensaje := s.mensaje }
      match signFn k (utf8Encode s1.mensaje) with
      | Except.ok sig => { s1 with firmaB64 := bufToBase64 sig }
      | Except.error _ => s1

/-- `handleFirmar` with the ideal provider, which always signs. -/
def handleFirmar (s : WorkflowState) : WorkflowState :=
  handleFirmarWith s (fun k data => Except.ok (signMessage k data))

/-- Embeds the "Copiar de Emisor" button (lines 366-371). -/
def copiarDeEmisor (s : WorkflowState) : WorkflowState :=
  if s.pubPemA = "" then s else { s with pubPemB := s.pubPemA }

/-- Embeds `handleImportarPubEnReceptor` (lines 128-138): import errors are
caught (alert only, state unchanged). -/
def handleImportarPubEnReceptor (s : WorkflowState) : WorkflowState :=
  if s.pubPemB = "" then s
  else
    match importPublicKeyFromPEM s.pubPemB with
    | Except.ok k => { s with pubKeyB := some k }
    | Except.error _ => s

/-- Verification result shown for a valid signature (line 160). -/
def mensajeAutentico : String := "✔ Firma válida — El mensaje es auténtico."

/-- Verification result shown for an invalid signature (line 161). -/
def mensajeInvalido : String :=
  "❌ Firma inválida — Clave incorrecta o mensaje alterado."

/-- Verification result shown for a detected MITM attack (line 154). -/
def mensajeAtaque : String := "❌ ATAQUE DETECTADO — El mensaje fue modificado."

/-- Embeds `handleVerificar` (lines 141-166).  `base64ToBuf(firmaB64)` runs
on line 147, BEFORE the `try` on line 149: a decode error escapes the
(async) handler uncaught and no state update runs, modelled as
`Except.error`.  The idealized `verifySignature` never throws, so the catch
branch (lines 163-165) is unreachable in the model. -/
def handleVerificar (s : WorkflowState) : Except String WorkflowState :=
  match s.pubKeyB with
  | none => Except.ok s
  | some pubKey =>
    if s.firmaB64 = "" then Except.ok s
    else
      let data := utf8Encode s.mensaje
      match base64ToBuf s.firmaB64 with
      | Except.error e => Except.error e
      | Except.ok sigBuf =>
        let esValido := verifySignature pubKey sigBuf data
        if esValido = false ∧ s.mensaje ≠ s.originalMensaje then
          Except.ok { s with verificacion := mensajeAtaque }
        else
          Except.ok { s with verificacion :=
            if esValido then mensajeAutentico else mensajeInvalido }

/-- Embeds the "Simular Ataque" onClick (lines 306-312):
`setMensaje(mensaje + ' [MODIFICADO POR ATAQUE]')`. -/
def simularAtaque (s : WorkflowState) : WorkflowState :=
  { s with mensaje := s.mensaje ++ " [MODIFICADO POR ATAQUE]" }

/-- `n` successive clicks of "Simular Ataque". -/
def iterAtaque : Nat → WorkflowState → WorkflowState
  | 0, s => s
  | n + 1, s => simularAtaque (iterAtaque n s)

/-- The attack marker repeated `n` times. -/
def repSufijo : Nat → String
  | 0 => ""
  | n + 1 => repSufijo n ++ " [MODIFICADO POR ATAQUE]"

/-- Embeds the message textarea onChange (lines 276-279): typing a message
updates both the current text and the signing-time snapshot. -/
def escribirMensaje (s : WorkflowState) (m : String) : WorkflowState :=
  { s with mensaje := m, originalMensaje := m }

/-! ### Provider and pipeline lemmas -/

theorem char_toNat_lt_utf8 (c : Char) : c.toNat < 1114112 := by
  rcases c.valid with h | ⟨_, h2⟩
  · exact Nat.lt_trans h (by decide)
  · exact h2

theorem utf8Char_lt (c : Char) : ∀ b ∈ utf8Char c, b < 256 := by
  intro b hb
  have hc := char_toNat_lt_utf8 c
  unfold utf8Char at hb
  split_ifs at hb with h1 h2 h3 <;> simp [List.mem_cons] at hb <;>
    rcases hb with rfl | rfl | rfl | rfl <;> omega

theorem concatAll_mem {α : Type} : ∀ (ls : List (List α)) (b : α),
    b ∈ concatAll ls → ∃ l ∈ ls, b ∈ l
  | [], b, h => by simp [concatAll] at h
  | l :: ls', b, h => by
      have h' : b ∈ l ++ concatAll ls' := h
      rcases List.mem_append.mp h' with h1 | h2
      · exact ⟨l, by simp, h1⟩
      · obtain ⟨l', hl', hb⟩ := concatAll_mem ls' b h2
        exact ⟨l', by simp [hl'], hb⟩

theorem utf8Encode_lt (s : String) : ∀ b ∈ utf8Encode s, b < 256 := by
  intro b hb
  obtain ⟨l, hl, hbl⟩ := concatAll_mem _ b hb
  simp only [List.mem_map] at hl
  obtain ⟨c, _, rfl⟩ := hl
  exact utf8Char_lt c b hbl

theorem spkiEncode_lt (k : PubKey) : ∀ b ∈ spkiEncode k, b < 256 := by
  intro b hb
  unfold spkiEncode at hb
  rcases List.mem_cons.mp hb with rfl | hm
  · omega
  · rw [List.eq_of_mem_replicate hm]
    omega

theorem spkiDecode_spkiEncode (k : PubKey) : spkiDecode (spkiEncode k) = some k := by
  unfold spkiDecode spkiEncode
  have hall : (List.replicate k.id 1).all (fun b => b == 1) = true := by
    apply List.all_eq_true.mpr
    intro b hb
    simp [List.eq_of_mem_replicate hb]
  simp [hall]

theorem signMessage_lt (k : PrivKey) (data : List Nat) (h : ∀ b ∈ data, b < 256) :
    ∀ b ∈ signMessage k data, b < 256 := by
  intro b hb
  unfold signMessage at hb
  rcases List.mem_append.mp hb with h1 | h2
  · rw [List.eq_of_mem_replicate h1]
    omega
  · rcases List.mem_cons.mp h2 with rfl | hm
    · omega
    · exact h b hm

theorem signMessage_ne_nil (k : PrivKey) (data : List Nat) :
    signMessage k data ≠ [] := by
  unfold signMessage
  simp

theorem toList_ne_nil_of_ne_empty {s : String} (h : s ≠ "") : s.toList ≠ [] := by
  intro hc
  exact h (by rw [← mk_toList s, hc])

theorem exportPublicKeyToPEM_spec (k : PubKey) :
    pemToBase64 (exportPublicKeyToPEM k) = bufToBase64 (spkiEncode k) ∧
    exportPublicKeyToPEM k ≠ "" := by
  have hnonempty : bufToBase64 (spkiEncode k) ≠ "" :=
    bufToBase64_ne_empty _ (by simp [spkiEncode])
  obtain ⟨a, ha, hback⟩ := pem_roundtrip (bufToBase64 (spkiEncode k)) "PUBLIC KEY"
    (toList_ne_nil_of_ne_empty hnonempty)
    (bufToBase64_chars_b64pad _ (spkiEncode_lt k)) (by decide)
  unfold exportPublicKeyToPEM
  rw [ha]
  constructor
  · simpa using hback
  · intro hc
    simp only [Option.getD_some] at hc
    rw [hc] at hback
    exact hnonempty (by rw [← hback]; rfl)

theorem importPublicKeyFromPEM_export (k : PubKey) :
    importPublicKeyFromPEM (exportPublicKeyToPEM k) = Except.ok k := by
  unfold importPublicKeyFromPEM
  rw [(exportPublicKeyToPEM_spec k).1, base64ToBuf_bufToBase64 _ (spkiEncode_lt k)]
  show (match spkiDecode (spkiEncode k) with
    | some k' => Except.ok k'
    | none => Except.error "ImportError") = Except.ok k
  rw [spkiDecode_spkiEncode]

/-! ### Handler equations -/

theorem handleFirmar_some (s : WorkflowState) (k : PrivKey)
    (hk : s.privKeyA = some k) (hm : s.mensaje ≠ "") :
    handleFirmar s = { s with
      originalMensaje := s.mensaje,
      firmaB64 := bufToBase64 (signMessage k (utf8Encode s.mensaje)) } := by
  unfold handleFirmar handleFirmarWith
  rw [hk]
  dsimp only
  rw [if_neg hm]

theorem copiarDeEmisor_some (s : WorkflowState) (h : s.pubPemA ≠ "") :
    copiarDeEmisor s = { s with pubPemB := s.pubPemA } := by
  unfold copiarDeEmisor
  rw [if_neg h]

theorem handleImportar_ok (s : WorkflowState) (k : PubKey) (hp : s.pubPemB ≠ "")
    (him : importPublicKeyFromPEM s.pubPemB = Except.ok k) :
    handleImportarPubEnReceptor s = { s with pubKeyB := some k } := by
  unfold handleImportarPubEnReceptor
  rw [if_neg hp, him]

/-- The outcome computation of `handleVerificar` once the guards pass and the
signature text decodes. -/
theorem handleVerificar_outcome (s : WorkflowState) (k : PubKey) (sigBuf : List Nat)
    (hk : s.pubKeyB = some k) (hf : s.firmaB64 ≠ "")
    (hdec : base64ToBuf s.firmaB64 = Except.ok sigBuf) :
    handleVerificar s = Except.ok { s with
      verificacion :=
        (if verifySignature k sigBuf (utf8Encode s.mensaje) then mensajeAutentico
          else if s.mensaje = s.originalMensaje then mensajeInvalido
          else mensajeAtaque) } := by
  unfold handleVerificar
  rw [hk]
  dsimp only
  rw [if_neg hf, hdec]
  dsimp only
  by_cases hv : verifySignature k sigBuf (utf8Encode s.mensaje) = true
  · rw [if_neg (by simp [hv]), hv]
    simp
  · have hv' : verifySignature k sigBuf (utf8Encode s.mensaje) = false := by
      simpa using hv
    by_cases hmsg : s.mensaje = s.originalMensaje
    · rw [if_neg (by simp [hmsg]), hv']
      simp [hmsg]
    · rw [if_pos ⟨hv', hmsg⟩, hv']
      simp [hmsg]

/-! ## Claims -/

/-- C1: For every call to `verify()` with an imported public key and a stored
signature whose Base64 text decodes, the outcome is derived exactly as: raw
cryptographic check over the current message text true → Authentic
(`mensajeAutentico`); false and the current message text differs from the
signing-time snapshot → TamperDetected (`mensajeAtaque`); false and the
message unchanged → Invalid (`mensajeInvalido`). -/
theorem c1_verify_outcome_derivation (s : WorkflowState) (k : PubKey)
    (sigBuf : List Nat) (hk : s.pubKeyB = some k) (hf : s.firmaB64 ≠ "")
    (hdec : base64ToBuf s.firmaB64 = Except.ok sigBuf) :
    handleVerificar s = Except.ok { s with
      verificacion :=
        (if verifySignature k sigBuf (utf8Encode s.mensaje) then mensajeAutentico
          else if s.mensaje ≠ s.originalMensaje then mensajeAtaque
          else mensajeInvalido) } := by
  have hswap : (if verifySignature k sigBuf (utf8Encode s.mensaje) then mensajeAutentico
      else if s.mensaje = s.originalMensaje then mensajeInvalido
      else mensajeAtaque) =
      (if verifySignature k sigBuf (utf8Encode s.mensaje) then mensajeAutentico
      else if s.mensaje ≠ s.originalMensaje then mensajeAtaque
      else mensajeInvalido) := by
    by_cases hm : s.mensaje = s.originalMensaje <;> simp [hm]
  rw [handleVerificar_outcome s k sigBuf hk hf hdec, hswap]

/-- C1 witness: a concrete state with an imported key and a decodable stored
signature; the raw check fails and the message equals the snapshot, so the
outcome is Invalid. -/
theorem c1_verify_outcome_derivation_witness :
    handleVerificar { initialState with
      pubKeyB := some ⟨0⟩, firmaB64 := "Kg==" } = Except.ok { initialState with
      pubKeyB := some ⟨0⟩, firmaB64 := "Kg==", verificacion := mensajeInvalido } :=
  (c1_verify_outcome_derivation
    { initialState with pubKeyB := some ⟨0⟩, firmaB64 := "Kg==" }
    ⟨0⟩ [42] rfl (by decide) rfl).trans rfl

/-- C3 (code bug): the spec requires a syntactically invalid Base64 signature
text to yield `Error(reason)`; in the code `base64ToBuf(firmaB64)` runs on
line 147, before the `try` of line 149, so the decode error escapes
`handleVerificar` uncaught and the outcome is never set — evaluated here at
the failing input (imported key present, signature text `"!!!"`). -/
theorem c3_decode_error_escapes :
    handleVerificar { initialState with
      pubKeyB := some ⟨0⟩, mensaje := "hola", firmaB64 := "!!!" } =
      Except.error "InvalidCharacterError" := rfl

/-- C4 counterexample: the code's suffix is the Spanish literal
`" [MODIFICADO POR ATAQUE]"` (line 309), not the claim's exact literal
`" [MODIFIED BY ATTACK]"`. -/
theorem c4_suffix_counterexample :
    (simularAtaque initialState).mensaje = " [MODIFICADO POR ATAQUE]" ∧
    (simularAtaque initialState).mensaje ≠ " [MODIFIED BY ATTACK]" := by
  decide

/-- C4 (amended): each "Simular Ataque" click appends the exact literal
`" [MODIFICADO POR ATAQUE]"` to the current message and leaves the
signing-time snapshot and the stored signature text unchanged; `n`
successive clicks append the suffix `n` times (non-idempotent). -/
theorem c4_tamper_appends (s : WorkflowState) (n : Nat) :
    (iterAtaque n s).mensaje = s.mensaje ++ repSufijo n ∧
    (iterAtaque n s).originalMensaje = s.originalMensaje ∧
    (iterAtaque n s).firmaB64 = s.firmaB64 := by
  induction n with
  | zero =>
      refine ⟨?_, rfl, rfl⟩
      show s.mensaje = s.mensaje ++ ""
      exact (String.append_empty s.mensaje).symm
  | succ n ih =>
      obtain ⟨h1, h2, h3⟩ := ih
      refine ⟨?_, h2, h3⟩
      show (iterAtaque n s).mensaje ++ " [MODIFICADO POR ATAQUE]" =
        s.mensaje ++ (repSufijo n ++ " [MODIFICADO POR ATAQUE]")
      rw [h1, String.append_assoc]

/-- C9: `sign()` is not atomic on error: the snapshot is overwritten with the
current message before the signing primitive runs, so when signing fails the
snapshot has been replaced while the stored signature text (and every other
field) keeps its old value. -/
theorem c9_sign_not_atomic (s : WorkflowState)
    (signFn : PrivKey → List Nat → Except String (List Nat)) (k : PrivKey)
    (e : String) (hk : s.privKeyA = some k) (hm : s.mensaje ≠ "")
    (herr : signFn k (utf8Encode s.mensaje) = Except.error e) :
    handleFirmarWith s signFn = { s with originalMensaje := s.mensaje } := by
  unfold handleFirmarWith
  rw [hk]
  dsimp only
  rw [if_neg hm]
  rw [herr]

/-- C9 witness: a failing signing oracle applied to a signed-up state:
only the snapshot changes; the old signature text survives. -/
theorem c9_sign_not_atomic_witness :
    handleFirmarWith { initialState with
      privKeyA := some ⟨0⟩, mensaje := "hola", originalMensaje := "old",
      firmaB64 := "sig" } (fun _ _ => Except.error "SigningError") =
    { initialState with
      privKeyA := some ⟨0⟩, mensaje := "hola", originalMensaje := "hola",
      firmaB64 := "sig" } := by
  have h := c9_sign_not_atomic { initialState with
      privKeyA := some ⟨0⟩, mensaje := "hola", originalMensaje := "old",
      firmaB64 := "sig" } (fun _ _ => Except.error "SigningError")
    ⟨0⟩ "SigningError" rfl (by decide) rfl
  exact h.trans rfl

/-- C10: a `verify()` call that completes modifies only the
verification-outcome field: the key pair, both exported key texts, the
imported public key, the current message, the signing-time snapshot and the
stored signature text are unchanged. -/
theorem c10_verify_frame (s s' : WorkflowState)
    (h : handleVerificar s = Except.ok s') :
    s'.privKeyA = s.privKeyA ∧ s'.pubKeyA = s.pubKeyA ∧
    s'.privPemA = s.privPemA ∧ s'.pubPemA = s.pubPemA ∧
    s'.pubKeyB = s.pubKeyB ∧ s'.pubPemB = s.pubPemB ∧
    s'.mensaje = s.mensaje ∧ s'.originalMensaje = s.originalMensaje ∧
    s'.firmaB64 = s.firmaB64 := by
  unfold handleVerificar at h
  split at h
  · injection h with h2
    subst h2
    exact ⟨rfl, rfl, rfl, rfl, rfl, rfl, rfl, rfl, rfl⟩
  · split at h
    · injection h with h2
      subst h2
      exact ⟨rfl, rfl, rfl, rfl, rfl, rfl, rfl, rfl, rfl⟩
    · split at h
      · exact absurd h (by simp)
      · dsimp only at h
        split at h
        · injection h with h2
          subst h2
          exact ⟨rfl, rfl, rfl, rfl, rfl, rfl, rfl, rfl, rfl⟩
        · injection h with h2
          subst h2
          exact ⟨rfl, rfl, rfl, rfl, rfl, rfl, rfl, rfl, rfl⟩

/-- C10 witness: the frame condition at a concrete completing verify call. -/
theorem c10_verify_frame_witness :
    ({ initialState with
        pubKeyB := some ⟨0⟩, firmaB64 := "Kg==",
        verificacion := mensajeInvalido } : WorkflowState).privKeyA =
      ({ initialState with
        pubKeyB := some ⟨0⟩, firmaB64 := "Kg==" } : WorkflowState).privKeyA ∧
    ({ initialState with
        pubKeyB := some ⟨0⟩, firmaB64 := "Kg==",
        verificacion := mensajeInvalido } : WorkflowState).pubKeyA =
      ({ initialState with
        pubKeyB := some ⟨0⟩, firmaB64 := "Kg==" } : WorkflowState).pubKeyA ∧
    ({ initialState with
        pubKeyB := some ⟨0⟩, firmaB64 := "Kg==",
        verificacion := mensajeInvalido } : WorkflowState).privPemA =
      ({ initialState with
        pubKeyB := some ⟨0⟩, firmaB64 := "Kg==" } : WorkflowState).privPemA ∧
    ({ initialState with
        pubKeyB := some ⟨0⟩, firmaB64 := "Kg==",
        verificacion := mensajeInvalido } : WorkflowState).pubPemA =
      ({ initialState with
        pubKeyB := some ⟨0⟩, firmaB64 := "Kg==" } : WorkflowState).pubPemA ∧
    ({ initialState with
        pubKeyB := some ⟨0⟩, firmaB64 := "Kg==",
        verificacion := mensajeInvalido } : WorkflowState).pubKeyB =
      ({ initialState with
        pubKeyB := some ⟨0⟩, firmaB64 := "Kg==" } : WorkflowState).pubKeyB ∧
    ({ initialState with
        pubKeyB := some ⟨0⟩, firmaB64 := "Kg==",
        verificacion := mensajeInvalido } : WorkflowState).pubPemB =
      ({ initialState with
        pubKeyB := some ⟨0⟩, firmaB64 := "Kg==" } : WorkflowState).pubPemB ∧
    ({ initialState with
        pubKeyB := some ⟨0⟩, firmaB64 := "Kg==",
        verificacion := mensajeInvalido } : WorkflowState).mensaje =
      ({ initialState with
        pubKeyB := some ⟨0⟩, firmaB64 := "Kg==" } : WorkflowState).mensaje ∧
    ({ initialState with
        pubKeyB := some ⟨0⟩, firmaB64 := "Kg==",
        verificacion := mensajeInvalido } : WorkflowState).originalMensaje =
      ({ initialState with
        pubKeyB := some ⟨0⟩, firmaB64 := "Kg==" } : WorkflowState).originalMensaje ∧
    ({ initialState with
        pubKeyB := some ⟨0⟩, firmaB64 := "Kg==",
        verificacion := mensajeInvalido } : WorkflowState).firmaB64 =
      ({ initialState with
        pubKeyB := some ⟨0⟩, firmaB64 := "Kg==" } : WorkflowState).firmaB64 :=
  c10_verify_frame { initialState with
      pubKeyB := some ⟨0⟩, firmaB64 := "Kg==" }
    { initialState with
      pubKeyB := some ⟨0⟩, firmaB64 := "Kg==",
      verificacion := mensajeInvalido } rfl

theorem splitLT_joinNl : ∀ (ls : List (List Char)), ls ≠ [] →
    (∀ l ∈ ls, ∀ c ∈ l, isLineTerm c = false) → splitLT (joinNl ls) = ls
  | [], hne, _ => absurd rfl hne
  | [x], _, h => by
      simp only [joinNl]
      exact splitLT_no_lt x (h x (by simp))
  | x :: y :: t, _, h => by
      have ih := splitLT_joinNl (y :: t) (by simp)
        (fun l hl => h l (by simp [List.mem_cons] at hl ⊢; tauto))
      simp only [joinNl]
      rw [splitLT_append_nl x _ (h x (by simp)), ih]

/-- The whitespace-stripping step of the `atob` decode (step 1 of the
forgiving-base64 algorithm). -/
def atobStripped (s : String) : List Char :=
  s.toList.filter (fun c => !isAsciiWs c)

/-- The text actually validated and decoded by `atob`: the stripped text with
up to two trailing `=` removed when its length is a multiple of four. -/
def atobCore (s : String) : List Char :=
  if (atobStripped s).length % 4 = 0 then removeTrailingPad (atobStripped s)
  else atobStripped s

/-- C5 counterexample: `pemEncode` crashes on the empty payload (`null.join`
throws), and a tag containing a LineTerminator — LF or CR, neither matched
by the regex `.` — breaks the delimiter lines, so the round trip fails on
these inputs the claim quantifies over. -/
theorem c5_counterexample :
    pemEncode "" "PUBLIC KEY" = none ∧
    (pemEncode "QQ==" "A\nB").map pemToBase64 ≠ some "QQ==" ∧
    (pemEncode "QQ==" "A\rB").map pemToBase64 ≠ some "QQ==" := by
  decide

/-- C5 (amended): for every non-empty Base64 payload (characters from the
Base64 alphabet or `=`) and every tag free of ECMAScript LineTerminators
(LF, CR, U+2028, U+2029 — the characters the regex `.` does not match),
armoring followed by unarmoring is the identity on the payload. -/
theorem c5_armor_roundtrip (x tag : String) (hne : x ≠ "")
    (hb : ∀ c ∈ x.toList, isB64Char c = true ∨ c = '=')
    (ht : ∀ c ∈ tag.toList, isLineTerm c = false) :
    ∃ a, pemEncode x tag = some a ∧ pemToBase64 a = x :=
  pem_roundtrip x tag (toList_ne_nil_of_ne_empty hne) hb ht

/-- C5 witness: the round trip at a concrete payload and tag. -/
theorem c5_armor_roundtrip_witness :
    ∃ a, pemEncode "QQ==" "PUBLIC KEY" = some a ∧ pemToBase64 a = "QQ==" :=
  c5_armor_roundtrip "QQ==" "PUBLIC KEY" (by decide) (by decide) (by decide)

/-- C6 counterexample: `atob("A")` fails although `"A"` contains no character
outside the Base64 alphabet (its stripped length is 1 mod 4), refuting the
claimed "fails if and only if a character outside the alphabet remains". -/
theorem c6_counterexample :
    (∃ e, base64ToBuf "A" = Except.error e) ∧
    (atobStripped "A").all isB64Char = true :=
  ⟨⟨"InvalidCharacterError", rfl⟩, by decide⟩

/-- C6 (amended): `base64ToBuf` first strips ASCII whitespace (so it is
insensitive to embedded whitespace), and fails exactly when the stripped
text's length is 1 mod 4 or when, after removing up to two trailing `=`
padding characters (only when the length is a multiple of four), a character
outside the 64-character Base64 alphabet remains. -/
theorem c6_decode_error_iff (s : String) :
    base64ToBuf s = base64ToBuf (String.mk (atobStripped s)) ∧
    ((∃ e, base64ToBuf s = Except.error e) ↔
      ((atobStripped s).length % 4 = 1 ∨
        ¬ (atobCore s).all isB64Char = true)) := by
  have hfilter : (atobStripped s).filter (fun c => !isAsciiWs c) = atobStripped s := by
    apply List.filter_eq_self.mpr
    intro c hc
    exact (List.mem_filter.mp hc).2
  constructor
  · show base64ToBuf s = _
    unfold base64ToBuf
    have htl : (String.mk (atobStripped s)).toList = atobStripped s := rfl
    rw [htl, hfilter]
    rfl
  · unfold base64ToBuf
    dsimp only
    rw [show s.toList.filter (fun c => !isAsciiWs c) = atobStripped s from rfl]
    have hcore : (if (atobStripped s).length % 4 = 0
        then removeTrailingPad (atobStripped s) else atobStripped s) = atobCore s := rfl
    rw [hcore]
    have hlen : (atobCore s).length % 4 = 1 ↔ (atobStripped s).length % 4 = 1 := by
      unfold atobCore
      split_ifs with h0
      · unfold removeTrailingPad
        split_ifs with h2 h1
        · have hle : 2 ≤ (atobStripped s).length := by
            have := congrArg List.length h2
            simp at this
            omega
          simp only [List.length_reverse, List.length_drop]
          omega
        · have hle : 1 ≤ (atobStripped s).length := by
            have := congrArg List.length h1
            simp at this
            omega
          simp only [List.length_reverse, List.length_drop]
          omega
        · exact Iff.rfl
      · exact Iff.rfl
    constructor
    · intro ⟨e, he⟩
      by_cases h1 : (atobCore s).length % 4 = 1
      · exact Or.inl (hlen.mp h1)
      · rw [if_neg h1] at he
        by_cases h2 : (atobCore s).all isB64Char = true
        · rw [h2] at he
          simp at he
        · exact Or.inr h2
    · intro h
      rcases h with h1 | h2
      · rw [if_pos (hlen.mpr h1)]
        exact ⟨"InvalidCharacterError", rfl⟩
      · by_cases h1 : (atobCore s).length % 4 = 1
        · rw [if_pos h1]
          exact ⟨"InvalidCharacterError", rfl⟩
        · rw [if_neg h1]
          have : (atobCore s).all isB64Char = false := by
            cases hx : (atobCore s).all isB64Char
            · rfl
            · exact absurd hx h2
          rw [this]
          exact ⟨"InvalidCharacterError", rfl⟩

/-- C7: `pemToBase64` is total and tolerant: it removes every full
LineTerminator-free delimiter line `-----…-----` regardless of the tag
between the dashes (a line the regex matches never contains a
LineTerminator, since `.` matches none), removes all whitespace from its
output, and performs no validation — mismatched BEGIN/END tags and multiple
armored blocks are processed all the same, each body surviving with its
in-segment delimiter matches stripped and its whitespace removed. -/
theorem c7_unarmor_tolerant :
    (∀ m : List Char, (∀ c ∈ m, isLineTerm c = false) →
      stripDelimLine (dash5 ++ m ++ dash5) = []) ∧
    (∀ s : String, ∀ c ∈ (pemToBase64 s).toList, isJsWs c = false) ∧
    (∀ t1 t2 b1 b2 : List Char,
      (∀ c ∈ t1, isLineTerm c = false) → (∀ c ∈ t2, isLineTerm c = false) →
      (∀ c ∈ b1, isLineTerm c = false) → (∀ c ∈ b2, isLineTerm c = false) →
      pemToBase64 (String.mk (joinNl [pemHeader t1, b1, pemFooter t2,
        pemHeader t2, b2, pemFooter t1])) =
        String.mk (wsFilter (stripDelimLine b1) ++ wsFilter (stripDelimLine b2))) := by
  refine ⟨fun m _ => stripDelimLine_full m, ?_, ?_⟩
  · intro s c hc
    have hc' : c ∈ wsFilter (joinNl ((splitLT s.toList).map stripDelimLine)) := hc
    have := (List.mem_filter.mp hc').2
    simpa using this
  · intro t1 t2 b1 b2 ht1 ht2 hb1 hb2
    rw [pemToBase64_mk]
    have hsplit : splitLT (joinNl [pemHeader t1, b1, pemFooter t2,
        pemHeader t2, b2, pemFooter t1]) = [pemHeader t1, b1, pemFooter t2,
        pemHeader t2, b2, pemFooter t1] := by
      apply splitLT_joinNl
      · simp
      · intro l hl
        simp only [List.mem_cons] at hl
        rcases hl with rfl | rfl | rfl | rfl | rfl | rfl | hl
        · exact pemHeader_no_lt t1 ht1
        · exact hb1
        · exact pemFooter_no_lt t2 ht2
        · exact pemHeader_no_lt t2 ht2
        · exact hb2
        · exact pemFooter_no_lt t1 ht1
        · simp at hl
    rw [hsplit]
    simp only [List.map_cons, List.map_nil]
    rw [stripDelimLine_header, stripDelimLine_footer, stripDelimLine_header,
      stripDelimLine_footer]
    rw [wsFilter_joinNl]
    simp only [List.map_cons, List.map_nil, concatAll]
    simp [wsFilter]

/-- C7 witness: two blocks with cross-mismatched tags, both stripped. -/
theorem c7_unarmor_tolerant_witness :
    pemToBase64 (String.mk (joinNl [pemHeader "KEY1".toList, "QQ==".toList,
      pemFooter "KEY2".toList, pemHeader "KEY2".toList, "Zm9v".toList,
      pemFooter "KEY1".toList])) =
      String.mk (wsFilter (stripDelimLine "QQ==".toList) ++
        wsFilter (stripDelimLine "Zm9v".toList)) :=
  c7_unarmor_tolerant.2.2 "KEY1".toList "KEY2".toList "QQ==".toList
    "Zm9v".toList (by decide) (by decide) (by decide) (by decide)

theorem handleFirmar_none (s : WorkflowState) (hk : s.privKeyA = none) :
    handleFirmar s = s := by
  unfold handleFirmar handleFirmarWith
  rw [hk]

theorem handleFirmar_empty (s : WorkflowState) (hm : s.mensaje = "") :
    handleFirmar s = s := by
  unfold handleFirmar handleFirmarWith
  cases hk : s.privKeyA with
  | none => rfl
  | some k =>
      dsimp only
      rw [if_pos hm]

/-- Setting only `verificacion` does not change a later verify outcome. -/
theorem handleVerificar_idem_aux (s : WorkflowState) (v : String) (k : PubKey)
    (sigBuf : List Nat) (hk : s.pubKeyB = some k) (hf : s.firmaB64 ≠ "")
    (hdec : base64ToBuf s.firmaB64 = Except.ok sigBuf) :
    handleVerificar { s with verificacion := v } =
      Except.ok { s with
        verificacion :=
          (if verifySignature k sigBuf (utf8Encode s.mensaje) then mensajeAutentico
            else if s.mensaje = s.originalMensaje then mensajeInvalido
            else mensajeAtaque) } :=
  handleVerificar_outcome { s with verificacion := v } k sigBuf hk hf hdec

/-- C8 counterexample: `generateKeys` is not idempotent — repeating it
installs a fresh key pair whose exported PEM texts differ, so the state after
the second call is not the state after the first. -/
theorem c8_generate_not_idempotent :
    handleGenerarClaves (handleGenerarClaves initialState 0) 1 ≠
      handleGenerarClaves initialState 0 := by
  decide

/-- C8 (amended): `sign`, `importVerifierKey` and `verify` are idempotent —
an immediate repeat call from any state leaves the WorkflowState identical
(for verify: a completed call repeats to the same state; a throwing call
changes nothing).  `generateKeys` is excluded: it replaces the pair with
fresh key material. -/
theorem c8_idempotent_ops :
    (∀ s : WorkflowState, handleFirmar (handleFirmar s) = handleFirmar s) ∧
    (∀ s : WorkflowState,
      handleImportarPubEnReceptor (handleImportarPubEnReceptor s) =
        handleImportarPubEnReceptor s) ∧
    (∀ s : WorkflowState,
      (handleVerificar s).bind handleVerificar = handleVerificar s) := by
  refine ⟨?_, ?_, ?_⟩
  · intro s
    cases hk : s.privKeyA with
    | none => rw [handleFirmar_none s hk, handleFirmar_none s hk]
    | some k =>
        by_cases hm : s.mensaje = ""
        · rw [handleFirmar_empty s hm, handleFirmar_empty s hm]
        · rw [handleFirmar_some s k hk hm]
          exact (handleFirmar_some { s with
            originalMensaje := s.mensaje,
            firmaB64 := bufToBase64 (signMessage k (utf8Encode s.mensaje)) }
            k hk hm).trans rfl
  · intro s
    by_cases hp : s.pubPemB = ""
    · have h1 : handleImportarPubEnReceptor s = s := by
        unfold handleImportarPubEnReceptor
        rw [if_pos hp]
      rw [h1, h1]
    · cases him : importPublicKeyFromPEM s.pubPemB with
      | error e =>
          have h1 : handleImportarPubEnReceptor s = s := by
            unfold handleImportarPubEnReceptor
            rw [if_neg hp, him]
          rw [h1, h1]
      | ok k =>
          rw [handleImportar_ok s k hp him]
          exact (handleImportar_ok { s with pubKeyB := some k } k hp him).trans rfl
  · intro s
    cases hk : s.pubKeyB with
    | none =>
        have h1 : handleVerificar s = Except.ok s := by
          unfold handleVerificar
          rw [hk]
        rw [h1]
        show handleVerificar s = Except.ok s
        exact h1
    | some k =>
        by_cases hf : s.firmaB64 = ""
        · have h1 : handleVerificar s = Except.ok s := by
            unfold handleVerificar
            rw [hk]
            dsimp only
            rw [if_pos hf]
          rw [h1]
          show handleVerificar s = Except.ok s
          exact h1
        · cases hdec : base64ToBuf s.firmaB64 with
          | error e =>
              have h1 : handleVerificar s = Except.error e := by
                unfold handleVerificar
                rw [hk]
                dsimp only
                rw [if_neg hf, hdec]
              rw [h1]
              rfl
          | ok sigBuf =>
              rw [handleVerificar_outcome s k sigBuf hk hf hdec]
              exact handleVerificar_idem_aux s _ k sigBuf hk hf hdec

/-- C2: signing a non-empty message with a fresh pair, exporting the public
key, importing it on the verifier side and verifying the stored signature
against the unchanged message yields the Authentic outcome. -/
theorem c2_sign_verify_roundtrip (m : String) (fresh : Nat) (hm : m ≠ "") :
    ∃ s5, handleVerificar (handleImportarPubEnReceptor (copiarDeEmisor
      (handleFirmar (handleGenerarClaves (escribirMensaje initialState m) fresh)))) =
      Except.ok s5 ∧ s5.verificacion = mensajeAutentico := by
  have hexp := exportPublicKeyToPEM_spec (⟨fresh⟩ : PubKey)
  set s0 := escribirMensaje initialState m with hs0
  set s1 := handleGenerarClaves s0 fresh with hs1
  rw [handleFirmar_some s1 ⟨fresh⟩ rfl hm]
  set s2 := { s1 with
    originalMensaje := s1.mensaje,
    firmaB64 := bufToBase64 (signMessage ⟨fresh⟩ (utf8Encode s1.mensaje)) } with hs2
  rw [copiarDeEmisor_some s2 hexp.2]
  set s3 := { s2 with pubPemB := s2.pubPemA } with hs3
  rw [handleImportar_ok s3 ⟨fresh⟩ hexp.2 (importPublicKeyFromPEM_export ⟨fresh⟩)]
  set s4 := { s3 with pubKeyB := some (⟨fresh⟩ : PubKey) } with hs4
  rw [handleVerificar_outcome s4 ⟨fresh⟩ (signMessage ⟨fresh⟩ (utf8Encode m)) rfl
    (bufToBase64_ne_empty _ (signMessage_ne_nil ⟨fresh⟩ (utf8Encode m)))
    (base64ToBuf_bufToBase64 _ (signMessage_lt ⟨fresh⟩ (utf8Encode m) (utf8Encode_lt m)))]
  refine ⟨_, rfl, ?_⟩
  have hval : verifySignature ⟨fresh⟩ (signMessage ⟨fresh⟩ (utf8Encode m))
      (utf8Encode s4.mensaje) = true := beq_self_eq_true _
  show (if verifySignature ⟨fresh⟩ (signMessage ⟨fresh⟩ (utf8Encode m))
      (utf8Encode s4.mensaje) = true then mensajeAutentico
    else if s4.mensaje = s4.originalMensaje then mensajeInvalido
    else mensajeAtaque) = mensajeAutentico
  rw [if_pos hval]

/-- C2 witness: the full pipeline at the concrete message "hola". -/
theorem c2_sign_verify_roundtrip_witness :
    ∃ s5, handleVerificar (handleImportarPubEnReceptor (copiarDeEmisor
      (handleFirmar (handleGenerarClaves (escribirMensaje initialState "hola") 7)))) =
      Except.ok s5 ∧ s5.verificacion = mensajeAutentico :=
  c2_sign_verify_roundtrip "hola" 7 (by decide)
